import Mathlib

/-!
# Verification of the Sales Aggregation Pipeline

Shallow embedding of the aggregation pipeline of the `data-analyst-eda-daily-sales`
repository (files `src/eda.py` and `src/polarsUtils.py`) together with proofs about
the specified properties of its stages:

* Date Normalizer   – `cleanDateColumn` (`eda.py`), parsing the `Fecha` column with
  the fixed chrono format string `"%b %e %Y %I:%M%p"` via polars `str.strptime`
  (strict mode, the polars default).
* Window Filter     – `filterLastNDaysFromMaxDate` (`polarsUtils.py`).
* Aggregator/Shaper – `prepareSummaryStatistics` and `prepareTopSellers` (`eda.py`),
  built from polars `group_by(...).agg(sum)`, `sort`, `head` and the six polars
  column reductions.

Numeric sale prices are embedded as exact rationals (`ℚ`), idealising the f64
arithmetic of polars.  Datetimes are embedded at two levels: the Date Normalizer
works on the calendar components actually produced by chrono parsing
(`DateTimeVal`), while the Window Filter sees the physical polars `Datetime`
value, an integer number of microseconds (`Int`).

Polars `group_by` (without `maintain_order=True`) returns its groups in a
non-deterministic order, and `DataFrame.sort` with the default
`maintain_order=False` does not promise to keep the order of equal elements.
Both operations are therefore embedded *relationally*: a predicate describes the
set of outputs the library is allowed to return, namely every permutation of the
canonical first-occurrence grouping, resp. every sorted permutation of the input.
-/

namespace DailySales

/-! ## Column-name constants (`eda.py`, lines 11–26) -/

def WAREHOUSE : String := "Almacen"
def DATE : String := "Fecha"
def SELLER : String := "Vendedor"
def NO_MOV : String := "NoMov"
def SALE_PRICE : String := "PrecioVenta"
def TOTAL_SALES : String := "TOTAL VENTAS"
def SALES_MEAN : String := "PROMEDIO"
def SALES_MEDIAN : String := "MEDIANA"
def SALES_STDDEV : String := "DESVIACION ESTANDAR"
def SALES_MIN : String := "VENTA MINIMA"
def SALES_MAX : String := "VENTA MAXIMA"

/-! ## Errors

The Python code signals failures by raising exceptions; the spec groups them into
a taxonomy (`SchemaError`, `ParseError`, `EmptyInputError`, …).  Each constructor
below corresponds to one concrete `raise` site (or polars-raised error) reachable
from the pipeline functions:

* `schemaError c`   – `ValueError("The column '<c>' does not exist …")`, raised by
  both `cleanDateColumn` and `filterLastNDaysFromMaxDate`; the spec calls this
  `SchemaError`.
* `maxNotDatetime`  – `ValueError("The maximum value in column '…' is not a
  datetime.")` in `filterLastNDaysFromMaxDate`.  On a table with zero rows the
  maximum is `null`, so this same raise site realises the spec's
  `EmptyInputError` (max over zero rows is undefined).
* `parseError s`    – the `ComputeError` polars raises from `str.strptime` in
  strict mode when the string `s` does not match the format pattern.
* `typeError`       – the error polars raises when the `.str` accessor is applied
  to a non-string value.
-/

inductive EdaError where
  | schemaError (col : String)
  | maxNotDatetime
  | parseError (s : String)
  | typeError
deriving DecidableEq

/-! ## Calendar datetimes and the chrono format `"%b %e %Y %I:%M%p"`

`cleanDateColumn` calls `pl.col(c).str.strptime(pl.Datetime, format="%b %e %Y %I:%M%p")`.
Polars delegates to Rust chrono.  For this fixed format string the relevant
chrono semantics are:

* `%b` – three-letter English month abbreviation, matched case-insensitively;
* a literal space in the format matches any run of spaces (including none);
* `%e`, `%I`, `%M` – numeric fields: parsing skips leading spaces then consumes
  one or two digits; `%Y` consumes up to four digits (signs are not modelled);
* `:` – matched literally, exactly;
* `%p` – `AM`/`PM`, matched case-insensitively;
* the whole input must be consumed (`parse_from_str` rejects trailing input);
* the parsed components must form a real calendar date (`Feb 30` fails), the
  12-hour value must lie in `1..=12` and the minute in `0..=59`.

When formatting, `%b` prints the title-case abbreviation, `%e` the day padded
with a space to width 2, `%Y` the year zero-padded to width 4, `%I`/`%M` the
zero-padded two-digit 12-hour value and minute, and `%p` prints `AM`/`PM`.
-/

structure DateTimeVal where
  year : Nat
  month : Nat
  day : Nat
  hour : Nat
  minute : Nat
deriving DecidableEq

def isLeapYear (y : Nat) : Bool :=
  y % 4 = 0 && (y % 100 != 0 || y % 400 = 0)

def daysInMonth (y m : Nat) : Nat :=
  if m = 2 then (if isLeapYear y then 29 else 28)
  else if m = 4 || m = 6 || m = 9 || m = 11 then 30
  else 31

/-- Title-case English month abbreviations, indexed by `month - 1`. -/
def monthAbbrevs : List String :=
  ["Jan", "Feb", "Mar", "Apr", "May", "Jun", "Jul", "Aug", "Sep", "Oct", "Nov", "Dec"]

def monthAbbrev (m : Nat) : String :=
  monthAbbrevs.getD (m - 1) ""

/-- Case-insensitive month-abbreviation lookup (the argument is already
lowercased); chrono matches `%b` case-insensitively. -/
def monthFromAbbrev (s : String) : Option Nat :=
  if s = "jan" then some 1
  else if s = "feb" then some 2
  else if s = "mar" then some 3
  else if s = "apr" then some 4
  else if s = "may" then some 5
  else if s = "jun" then some 6
  else if s = "jul" then some 7
  else if s = "aug" then some 8
  else if s = "sep" then some 9
  else if s = "oct" then some 10
  else if s = "nov" then some 11
  else if s = "dec" then some 12
  else none

/-- Drop a run of leading spaces (chrono trims whitespace before numeric fields
and for literal-space items). -/
def skipSpaces : List Char → List Char
  | [] => []
  | c :: rest => if c = ' ' then skipSpaces rest else c :: rest

/-- Consume up to `width` leading decimal digits, returning the accumulated
value, the number of digits consumed, and the remaining input. -/
def scanDigits (width : Nat) (acc : Nat) (cs : List Char) : Nat × Nat × List Char :=
  match width, cs with
  | 0, cs => (acc, 0, cs)
  | _ + 1, [] => (acc, 0, [])
  | w + 1, c :: rest =>
    if c.isDigit then
      let r := scanDigits w (acc * 10 + (c.toNat - 48)) rest
      (r.1, r.2.1 + 1, r.2.2)
    else (acc, 0, c :: rest)

/-- A chrono numeric field of maximal width `width`: skip leading spaces, then
require at least one digit. -/
def scanNumber (width : Nat) (cs : List Char) : Option (Nat × List Char) :=
  if (scanDigits width 0 (skipSpaces cs)).2.1 = 0 then none
  else some ((scanDigits width 0 (skipSpaces cs)).1, (scanDigits width 0 (skipSpaces cs)).2.2)

/-- The `%b` field: three letters, looked up case-insensitively. -/
def scanMonthAbbrev : List Char → Option (Nat × List Char)
  | a :: b :: c :: rest =>
    match monthFromAbbrev (String.mk [a.toLower, b.toLower, c.toLower]) with
    | some m => some (m, rest)
    | none => none
  | _ => none

/-- The literal `:` of the format, matched exactly. -/
def expectColon : List Char → Option (List Char)
  | c :: rest => if c = ':' then some rest else none
  | _ => none

/-- The `%p` field: `AM`/`PM`, case-insensitive; `true` means PM. -/
def scanAmPm : List Char → Option (Bool × List Char)
  | a :: b :: rest =>
    if a.toLower = 'a' && b.toLower = 'm' then some (false, rest)
    else if a.toLower = 'p' && b.toLower = 'm' then some (true, rest)
    else none
  | _ => none

/-- Parse a character list against `"%b %e %Y %I:%M%p"` exactly as chrono does,
including the final calendar-validity checks.  (The literal spaces of the
format match any run of spaces; the numeric fields additionally skip leading
spaces themselves, so no separate space step is needed between fields.) -/
def strptimeChars (cs : List Char) : Option DateTimeVal :=
  match scanMonthAbbrev cs with
  | none => none
  | some (month, cs1) =>
    match scanNumber 2 cs1 with
    | none => none
    | some (day, cs3) =>
      match scanNumber 4 cs3 with
      | none => none
      | some (year, cs5) =>
        match scanNumber 2 cs5 with
        | none => none
        | some (h12, cs7) =>
          match expectColon cs7 with
          | none => none
          | some cs8 =>
            match scanNumber 2 cs8 with
            | none => none
            | some (minute, cs9) =>
              match scanAmPm cs9 with
              | none => none
              | some (pm, cs10) =>
                if cs10 = [] && 1 ≤ day && day ≤ daysInMonth year month &&
                    1 ≤ h12 && h12 ≤ 12 && minute ≤ 59 then
                  some ⟨year, month, day, (if pm then h12 % 12 + 12 else h12 % 12), minute⟩
                else
                  none

/-- `str.strptime(pl.Datetime, format="%b %e %Y %I:%M%p")` on one string value. -/
def strptimeDT (s : String) : Option DateTimeVal :=
  strptimeChars s.toList

/-- The 12-hour clock value printed by `%I`. -/
def hour12Of (h : Nat) : Nat :=
  if h % 12 = 0 then 12 else h % 12

/-- Two digits, zero-padded (`%I`, `%M`). -/
def padZero2 (n : Nat) : List Char :=
  [Nat.digitChar (n / 10), Nat.digitChar (n % 10)]

/-- Day of month, space-padded to width 2 (`%e`). -/
def padSpace2 (n : Nat) : List Char :=
  if n < 10 then [' ', Nat.digitChar n] else padZero2 n

/-- Four digits, zero-padded (`%Y` for years below 10000). -/
def pad4 (n : Nat) : List Char :=
  [Nat.digitChar (n / 1000 % 10), Nat.digitChar (n / 100 % 10),
   Nat.digitChar (n / 10 % 10), Nat.digitChar (n % 10)]

/-- Format a datetime with `"%b %e %Y %I:%M%p"` exactly as chrono does. -/
def strftimeChars (d : DateTimeVal) : List Char :=
  (monthAbbrev d.month).toList ++ [' '] ++ padSpace2 d.day ++ [' '] ++ pad4 d.year ++
    [' '] ++ padZero2 (hour12Of d.hour) ++ [':'] ++ padZero2 d.minute ++
    (if d.hour < 12 then ['A', 'M'] else ['P', 'M'])

def strftimeDT (d : DateTimeVal) : String :=
  String.mk (strftimeChars d)

/-! ## Generic tables and the Date Normalizer (`cleanDateColumn`, `eda.py` 29–51)

A polars `DataFrame` is embedded as a fixed column-name list plus a list of rows,
each row a list of cell values positionally aligned with the columns.  A cell of
a string column is `.str`, of a datetime column `.dt`, of a numeric column
`.num`; `.null` is the polars `null`, which `str.strptime` passes through
unchanged (strict mode only rejects non-null strings that fail to parse).
-/

inductive CellValue where
  | str (s : String)
  | dt (d : DateTimeVal)
  | num (q : ℚ)
  | null
deriving DecidableEq

structure DataFrame where
  columns : List String
  rows : List (List CellValue)
deriving DecidableEq

/-- `str.strptime` in strict mode on one cell: a parseable string becomes a
datetime, `null` passes through, an unparseable string raises `ComputeError`,
and a non-string value cannot be reached by the `.str` accessor. -/
def parseCell (v : CellValue) : Except EdaError CellValue :=
  match v with
  | .str s =>
    match strptimeDT s with
    | some d => .ok (.dt d)
    | none => .error (.parseError s)
  | .null => .ok .null
  | _ => .error .typeError

/-- Apply `parseCell` at position `j` of every row, stopping at the first
failure (polars evaluates the strict `strptime` over the whole column and
raises on the first bad value). -/
def parseRows (j : Nat) : List (List CellValue) → Except EdaError (List (List CellValue))
  | [] => .ok []
  | row :: rest =>
    match parseCell (row.getD j .null) with
    | .error e => .error e
    | .ok v =>
      match parseRows j rest with
      | .error e => .error e
      | .ok rs => .ok (row.set j v :: rs)

/-- `cleanDateColumn(df, dateColumnName)` (`eda.py`, lines 29–51): raise
`ValueError` when the named column is absent, otherwise replace the column by
its parsed values via `with_columns` / `str.strptime`. -/
def cleanDateColumn (df : DataFrame) (dateColumnName : String) : Except EdaError DataFrame :=
  if dateColumnName ∈ df.columns then
    match parseRows (df.columns.indexOf dateColumnName) df.rows with
    | .error e => .error e
    | .ok rs => .ok ⟨df.columns, rs⟩
  else
    .error (.schemaError dateColumnName)

/-! ## Typed sales rows and the Window Filter
(`filterLastNDaysFromMaxDate`, `polarsUtils.py` 148–176)

After `cleanDateColumn` the merged sales table has a fixed schema; the pipeline
functions only touch the columns `Almacen`, `NoMov`, `Fecha`, `Vendedor` and
`PrecioVenta`, so a row is embedded as a record of those five fields (the
remaining payload columns — customer, product, quantity, payment method — ride
along unchanged through every pipeline stage and are omitted).  `fecha` holds
the physical polars `Datetime` value: microseconds since the epoch, or `none`
for a `null`.  In this typed embedding the date column exists by construction,
so the missing-column `ValueError` branch of `filterLastNDaysFromMaxDate` is
unreachable; `getDate` abstracts `pl.col(columnDate)`.
-/

structure SalesRow where
  almacen : String
  noMov : String
  fecha : Option Int
  vendedor : String
  precioVenta : ℚ
deriving DecidableEq

/-- Microseconds per day: `timedelta(days=1)` on a microsecond-resolution
polars `Datetime`. -/
def usPerDay : Int := 86400000000

/-- `df.select(pl.col(columnDate).max()).item()`: the maximum of the column,
ignoring nulls; `none` when the table is empty or all-null. -/
def maxFecha (dates : List (Option Int)) : Option Int :=
  match dates.filterMap id with
  | [] => none
  | t :: ts => some (ts.foldl max t)

/-- `filterLastNDaysFromMaxDate(df, days, columnDate)` (`polarsUtils.py`,
lines 148–176): compute `maxDate`, raise `ValueError` when it is not a datetime
(in particular when the table has zero rows), otherwise keep exactly the rows
whose date is `>= maxDate - timedelta(days=days)`.  A polars filter keeps row
order; a `null` date compares to `null`, which the filter drops. -/
def filterLastNDaysFromMaxDate {α : Type} (getDate : α → Option Int) (days : Int)
    (rows : List α) : Except EdaError (List α) :=
  match maxFecha (rows.map getDate) with
  | none => .error .maxNotDatetime
  | some maxDate =>
    let cutoffDate := maxDate - days * usPerDay
    .ok (rows.filter (fun r =>
      match getDate r with
      | some t => decide (cutoffDate ≤ t)
      | none => false))

/-! ## The Aggregator: `group_by(keys).agg(sum(PrecioVenta))`

`group_by` partitions the rows by exact key equality and sums the value column
per key.  The canonical result below lists the keys in order of first
occurrence with their sums; the order polars actually returns is
non-deterministic, which `relGroupBySum` captures as an arbitrary permutation
of the canonical result.
-/

/-- Add `q` to the entry of key `k`, or append a fresh entry. -/
def insertAdd {κ : Type} [DecidableEq κ] (k : κ) (q : ℚ) :
    List (κ × ℚ) → List (κ × ℚ)
  | [] => [(k, q)]
  | (k1, q1) :: t => if k = k1 then (k1, q1 + q) :: t else (k1, q1) :: insertAdd k q t

/-- Canonical `group_by(key).agg(pl.col(val).sum())`: one entry per distinct
key, in order of first occurrence, carrying the sum of `val` over the key's
rows. -/
def groupBySum {α κ : Type} [DecidableEq κ] (key : α → κ) (val : α → ℚ)
    (rows : List α) : List (κ × ℚ) :=
  rows.foldl (fun acc r => insertAdd (key r) (val r) acc) []

/-- Relational `group_by`: polars may return the groups in any order. -/
def relGroupBySum {α κ : Type} [DecidableEq κ] (key : α → κ) (val : α → ℚ)
    (rows : List α) (out : List (κ × ℚ)) : Prop :=
  out.Perm (groupBySum key val rows)

/-! ## The six polars column reductions over the grouped totals -/

/-- `pl.col(...).mean()`: `null` on an empty column. -/
def colMean (l : List ℚ) : Option ℚ :=
  if l = [] then none else some (l.sum / l.length)

/-- `pl.col(...).median()`: sort, take the middle value, or the mean of the two
middle values for an even count; `null` on an empty column. -/
def colMedian (l : List ℚ) : Option ℚ :=
  let s := l.insertionSort (· ≤ ·)
  if l = [] then none
  else if l.length % 2 = 1 then some (s.getD (l.length / 2) 0)
  else some ((s.getD (l.length / 2 - 1) 0 + s.getD (l.length / 2) 0) / 2)

/-- The square of `pl.col(...).std()` (sample standard deviation, `ddof=1`):
the sample variance `Σ (x - mean)² / (n - 1)`.  The standard deviation itself
is the (irrational-valued) square root of this quantity and is `null` exactly
when this is `none`, i.e. for fewer than two values. -/
def colStdSq (l : List ℚ) : Option ℚ :=
  if 2 ≤ l.length then
    some (((l.map (fun x => (x - l.sum / l.length) ^ 2)).sum) / ((l.length : ℚ) - 1))
  else none

/-- `pl.col(...).min()`: `null` on an empty column. -/
def colMin (l : List ℚ) : Option ℚ :=
  match l with
  | [] => none
  | a :: as => some (as.foldl min a)

/-- `pl.col(...).max()`: `null` on an empty column. -/
def colMax (l : List ℚ) : Option ℚ :=
  match l with
  | [] => none
  | a :: as => some (as.foldl max a)

/-! ## Rounding

`prepareSummaryStatistics` rounds the presentation values with pandas
`DataFrame.round(2)`, which rounds half to even. -/

def roundHalfEven (q : ℚ) : Int :=
  if q - ⌊q⌋ < 1 / 2 then ⌊q⌋
  else if 1 / 2 < q - ⌊q⌋ then ⌊q⌋ + 1
  else if ⌊q⌋ % 2 = 0 then ⌊q⌋ else ⌊q⌋ + 1

def round2 (q : ℚ) : ℚ :=
  (roundHalfEven (q * 100) : ℚ) / 100

/-! ## The Overall summary (`prepareSummaryStatistics`, `eda.py` 64–97) -/

/-- The five aliases of the `select` in `prepareSummaryStatistics` (lines
83–89), i.e. the column names of the one-row summary frame the function
returns. -/
def summaryColumns : List String :=
  [SALES_MEAN, SALES_MEDIAN, SALES_STDDEV, SALES_MIN, SALES_MAX]

/-- The one-row result of `prepareSummaryStatistics`: one `Option ℚ` per entry
of `summaryColumns` (`stdSq` stores the square of the reported standard
deviation, see `colStdSq`; the code reports `round2` of its square root). -/
structure SummaryRecord where
  mean : Option ℚ
  median : Option ℚ
  stdSq : Option ℚ
  vmin : Option ℚ
  vmax : Option ℚ
deriving DecidableEq

/-- The `select` of lines 83–89 followed by the `round(2)` of line 95, applied
to the list of per-ticket totals. -/
def summarize (totals : List ℚ) : SummaryRecord where
  mean := (colMean totals).map round2
  median := (colMedian totals).map round2
  stdSq := colStdSq totals
  vmin := (colMin totals).map round2
  vmax := (colMax totals).map round2

/-- The grouping key of `prepareSummaryStatistics`: `(Almacen, NoMov)`, one
ticket per distinct pair. -/
def ticketKey (r : SalesRow) : String × String :=
  (r.almacen, r.noMov)

/-- The canonical per-ticket totals (first step of `prepareSummaryStatistics`):
`group_by([WAREHOUSE, NO_MOV]).agg(pl.col(SALE_PRICE).sum())`. -/
def ticketTotals (df : List SalesRow) : List ((String × String) × ℚ) :=
  groupBySum ticketKey SalesRow.precioVenta df

/-- Relational `prepareSummaryStatistics(df)`: group the rows into per-ticket
totals (in whatever order polars returns them) and reduce the `TOTAL VENTAS`
column of that grouped frame with the five statistics. -/
def relPrepareSummaryStatistics (df : List SalesRow) (out : SummaryRecord) : Prop :=
  ∃ g, relGroupBySum ticketKey SalesRow.precioVenta df g ∧
    out = summarize (g.map Prod.snd)

/-! ## Top/Bottom-N (`prepareTopSellers`, `eda.py` 99–126) -/

/-- The canonical per-seller totals of step 2 of `prepareTopSellers`:
`group_by(SELLER).agg(pl.col(SALE_PRICE).sum())`. -/
def sellerTotals (rows : List SalesRow) : List (String × ℚ) :=
  groupBySum SalesRow.vendedor SalesRow.precioVenta rows

/-- Sorted by the `TOTAL VENTAS` value: ascending for bottom sellers
(`ascending=True`, `descending=False`), descending for top sellers. -/
def valueSorted (ascending : Bool) (l : List (String × ℚ)) : Prop :=
  List.Pairwise (fun a b : String × ℚ => if ascending then a.2 ≤ b.2 else b.2 ≤ a.2) l

/-- Relational `DataFrame.sort(TOTAL_SALES, descending=not ascending)` with the
default `maintain_order=False`: any permutation of the input whose values are
sorted in the requested direction is a possible output. -/
def relSortByTotal (ascending : Bool) (inp out : List (String × ℚ)) : Prop :=
  out.Perm inp ∧ valueSorted ascending out

/-- Relational `prepareTopSellers(df, limit, ascending, days)`: filter to the
last `days` from the maximum date (propagating its error), group by seller,
sort by total sales and keep the first `limit` rows (`head`). -/
def relPrepareTopSellers (df : List SalesRow) (limit : Nat) (ascending : Bool)
    (days : Int) (res : Except EdaError (List (String × ℚ))) : Prop :=
  match filterLastNDaysFromMaxDate SalesRow.fecha days df with
  | .error e => res = .error e
  | .ok filtered =>
    ∃ g s, relGroupBySum SalesRow.vendedor SalesRow.precioVenta filtered g ∧
      relSortByTotal ascending g s ∧ res = .ok (s.take limit)

/-! ## Facts about the maximum of the date column -/

theorem le_foldl_max (l : List Int) (a : Int) : a ≤ l.foldl max a := by
  induction l generalizing a with
  | nil => simp
  | cons c t ih =>
    rw [List.foldl_cons]
    exact le_trans (le_max_left a c) (ih (max a c))

theorem mem_le_foldl_max (l : List Int) (a b : Int) (hb : b ∈ l) : b ≤ l.foldl max a := by
  induction l generalizing a with
  | nil => cases hb
  | cons c t ih =>
    rw [List.foldl_cons]
    rcases List.mem_cons.mp hb with h | h
    · subst h
      exact le_trans (le_max_right a b) (le_foldl_max t _)
    · exact ih _ h

/-- Every date in the column is bounded by the column maximum. -/
theorem maxFecha_le (dates : List (Option Int)) (M : Int)
    (h : maxFecha dates = some M) (t : Int) (ht : some t ∈ dates) : t ≤ M := by
  have htf : t ∈ dates.filterMap id := List.mem_filterMap.mpr ⟨some t, ht, rfl⟩
  unfold maxFecha at h
  cases hf : dates.filterMap id with
  | nil => rw [hf] at h; cases h
  | cons a as =>
    rw [hf] at h
    injection h with h
    subst h
    rw [hf] at htf
    rcases List.mem_cons.mp htf with h | h
    · subst h
      exact le_foldl_max as t
    · exact mem_le_foldl_max as a t h

/-- A non-null date in the column forces the column maximum to exist. -/
theorem maxFecha_isSome (dates : List (Option Int)) (t : Int)
    (ht : some t ∈ dates) : ∃ M, maxFecha dates = some M := by
  have htf : t ∈ dates.filterMap id := List.mem_filterMap.mpr ⟨some t, ht, rfl⟩
  unfold maxFecha
  cases hf : dates.filterMap id with
  | nil => rw [hf] at htf; cases htf
  | cons a as => exact ⟨as.foldl max a, rfl⟩

/-- C1.  For every non-empty table with a (non-null) timestamp column and every
`days ≥ 0`, the Window Filter computes `maxDate = max(column)` and
`cutoff = maxDate - days` and returns exactly the rows whose timestamp is
`>= cutoff` (inclusive); for `days = 0` it returns exactly the rows whose
timestamp equals `maxDate`. -/
theorem windowFilter_keeps_exactly_rows_after_cutoff (rows : List SalesRow) (days : Int)
    (hne : rows ≠ []) (hall : ∀ r ∈ rows, r.fecha ≠ none) (hd : 0 ≤ days) :
    ∃ M, maxFecha (rows.map SalesRow.fecha) = some M ∧
      filterLastNDaysFromMaxDate SalesRow.fecha days rows =
        .ok (rows.filter (fun r =>
          match r.fecha with
          | some t => decide (M - days * usPerDay ≤ t)
          | none => false)) ∧
      (days = 0 →
        filterLastNDaysFromMaxDate SalesRow.fecha days rows =
          .ok (rows.filter (fun r => decide (r.fecha = some M)))) := by
  obtain ⟨r0, rest, rfl⟩ : ∃ r0 rest, rows = r0 :: rest := by
    cases rows with
    | nil => exact absurd rfl hne
    | cons a l => exact ⟨a, l, rfl⟩
  obtain ⟨t0, ht0⟩ : ∃ t0, r0.fecha = some t0 := by
    cases h : r0.fecha with
    | none => exact absurd h (hall r0 (List.mem_cons_self r0 rest))
    | some t => exact ⟨t, rfl⟩
  obtain ⟨M, hM⟩ :=
    maxFecha_isSome ((r0 :: rest).map SalesRow.fecha) t0
      (List.mem_map.mpr ⟨r0, List.mem_cons_self r0 rest, ht0⟩)
  refine ⟨M, hM, ?_, ?_⟩
  · simp only [filterLastNDaysFromMaxDate, hM]
  · intro hdz
    subst hdz
    simp only [filterLastNDaysFromMaxDate, hM, zero_mul, sub_zero]
    have hfe : ((r0 :: rest).filter (fun r =>
        match r.fecha with
        | some t => decide (M ≤ t)
        | none => false)) =
        ((r0 :: rest).filter (fun r => decide (r.fecha = some M))) := by
      apply List.filter_congr
      intro r hr
      cases hf : r.fecha with
      | none => exact absurd hf (hall r hr)
      | some t =>
        have hle : t ≤ M :=
          maxFecha_le _ M hM t (List.mem_map.mpr ⟨r, hr, hf⟩)
        rw [decide_eq_decide]
        constructor
        · intro h
          exact congrArg some (le_antisymm hle h)
        · intro h
          injection h with h
          omega
    rw [hfe]

theorem windowFilter_keeps_exactly_rows_after_cutoff_witness :
    (([⟨"W", "T1", some 3, "A", 5⟩, ⟨"W", "T2", some 1, "B", 7⟩] : List SalesRow) ≠ []) ∧
      (∀ r ∈ ([⟨"W", "T1", some 3, "A", 5⟩, ⟨"W", "T2", some 1, "B", 7⟩] : List SalesRow),
        r.fecha ≠ none) ∧ (0 ≤ (0 : Int)) ∧
      (∃ M, maxFecha (([⟨"W", "T1", some 3, "A", 5⟩, ⟨"W", "T2", some 1, "B", 7⟩] :
          List SalesRow).map SalesRow.fecha) = some M ∧
        filterLastNDaysFromMaxDate SalesRow.fecha 0
            [⟨"W", "T1", some 3, "A", 5⟩, ⟨"W", "T2", some 1, "B", 7⟩] =
          .ok ([⟨"W", "T1", some 3, "A", 5⟩, ⟨"W", "T2", some 1, "B", 7⟩].filter (fun r =>
            match r.fecha with
            | some t => decide (M - 0 * usPerDay ≤ t)
            | none => false)) ∧
        ((0 : Int) = 0 →
          filterLastNDaysFromMaxDate SalesRow.fecha 0
              [⟨"W", "T1", some 3, "A", 5⟩, ⟨"W", "T2", some 1, "B", 7⟩] =
            .ok ([⟨"W", "T1", some 3, "A", 5⟩, ⟨"W", "T2", some 1, "B", 7⟩].filter
              (fun r => decide (r.fecha = some M))))) :=
  ⟨by decide, by decide, by decide,
    windowFilter_keeps_exactly_rows_after_cutoff
      [⟨"W", "T1", some 3, "A", 5⟩, ⟨"W", "T2", some 1, "B", 7⟩] 0
      (by decide) (by decide) (by decide)⟩

/-- C4.  On a table with zero rows the Window Filter fails (the maximum date is
undefined) rather than returning a result: the code raises the `ValueError` of
its `maxDate` datetime check, the realisation of the spec's `EmptyInputError`. -/
theorem windowFilter_empty_table_fails {α : Type} (getDate : α → Option Int) (days : Int) :
    filterLastNDaysFromMaxDate getDate days ([] : List α) = .error .maxNotDatetime := rfl

/-- C10.  For `days < 0` on a table whose date-column maximum exists, the
Window Filter raises no error and returns zero rows: the cutoff lies strictly
after the maximum date. -/
theorem windowFilter_negative_days_returns_empty (rows : List SalesRow) (days M : Int)
    (hmax : maxFecha (rows.map SalesRow.fecha) = some M) (hd : days < 0) :
    filterLastNDaysFromMaxDate SalesRow.fecha days rows = .ok [] := by
  simp only [filterLastNDaysFromMaxDate, hmax]
  have hnil : (rows.filter (fun r =>
      match r.fecha with
      | some t => decide (M - days * usPerDay ≤ t)
      | none => false)) = [] := by
    rw [List.filter_eq_nil_iff]
    intro r hr
    cases hf : r.fecha with
    | none => simp
    | some t =>
      have hle : t ≤ M :=
        maxFecha_le _ M hmax t (List.mem_map.mpr ⟨r, hr, hf⟩)
      simp only [decide_eq_true_eq, usPerDay]
      omega
  rw [hnil]

theorem windowFilter_negative_days_returns_empty_witness :
    maxFecha (([⟨"W", "T1", some 5, "A", 1⟩] : List SalesRow).map SalesRow.fecha) = some 5 ∧
      ((-1 : Int) < 0) ∧
      filterLastNDaysFromMaxDate SalesRow.fecha (-1) [⟨"W", "T1", some 5, "A", 1⟩] =
        .ok [] :=
  ⟨rfl, by decide,
    windowFilter_negative_days_returns_empty [⟨"W", "T1", some 5, "A", 1⟩] (-1) 5
      rfl (by decide)⟩

/-! ## Conservation of the grouped sums -/

theorem insertAdd_snd_sum {κ : Type} [DecidableEq κ] (k : κ) (q : ℚ) (l : List (κ × ℚ)) :
    ((insertAdd k q l).map Prod.snd).sum = (l.map Prod.snd).sum + q := by
  induction l with
  | nil => simp [insertAdd]
  | cons p t ih =>
    obtain ⟨k1, q1⟩ := p
    by_cases h : k = k1
    · simp only [insertAdd, if_pos h, List.map_cons, List.sum_cons]
      ring
    · simp only [insertAdd, if_neg h, List.map_cons, List.sum_cons, ih]
      ring

theorem groupBySum_foldl_snd_sum {α κ : Type} [DecidableEq κ] (key : α → κ) (val : α → ℚ)
    (rows : List α) (acc : List (κ × ℚ)) :
    (((rows.foldl (fun a r => insertAdd (key r) (val r) a) acc)).map Prod.snd).sum =
      (acc.map Prod.snd).sum + (rows.map val).sum := by
  induction rows generalizing acc with
  | nil => simp
  | cons r t ih =>
    rw [List.foldl_cons, ih, insertAdd_snd_sum, List.map_cons, List.sum_cons]
    ring

/-- The canonical grouped sums conserve the ungrouped total. -/
theorem groupBySum_snd_sum {α κ : Type} [DecidableEq κ] (key : α → κ) (val : α → ℚ)
    (rows : List α) :
    ((groupBySum key val rows).map Prod.snd).sum = (rows.map val).sum := by
  unfold groupBySum
  rw [groupBySum_foldl_snd_sum]
  simp

/-- C3.  The sum of the Aggregator's per-group sums over all groups equals the
sum of the numeric column over the ungrouped rows, whatever group order polars
returns; and grouping the three-row scenario table by `(Almacen, NoMov)` and
summing `PrecioVenta` yields exactly the totals 150 for (W1,T1) and 200 for
(W2,T2). -/
theorem aggregator_conserves_total_and_scenario :
    (∀ (rows : List SalesRow) (out : List ((String × String) × ℚ)),
        relGroupBySum ticketKey SalesRow.precioVenta rows out →
        (out.map Prod.snd).sum = (rows.map SalesRow.precioVenta).sum) ∧
    (∀ out : List ((String × String) × ℚ),
        relGroupBySum ticketKey SalesRow.precioVenta
          [⟨"W1", "T1", some 0, "A", 100⟩, ⟨"W1", "T1", some 0, "A", 50⟩,
            ⟨"W2", "T2", some 1, "B", 200⟩] out →
        out.Perm [(("W1", "T1"), 150), (("W2", "T2"), 200)]) := by
  constructor
  · intro rows out hperm
    rw [(hperm.map Prod.snd).sum_eq]
    exact groupBySum_snd_sum ticketKey SalesRow.precioVenta rows
  · intro out hperm
    unfold relGroupBySum at hperm
    have hc : groupBySum ticketKey SalesRow.precioVenta
        [⟨"W1", "T1", some 0, "A", 100⟩, ⟨"W1", "T1", some 0, "A", 50⟩,
          ⟨"W2", "T2", some 1, "B", 200⟩] =
        [(("W1", "T1"), 150), (("W2", "T2"), 200)] := by
      norm_num [groupBySum, insertAdd, ticketKey]
      decide
    rwa [hc] at hperm

theorem aggregator_conserves_total_and_scenario_witness :
    relGroupBySum ticketKey SalesRow.precioVenta
      [⟨"W1", "T1", some 0, "A", 100⟩, ⟨"W1", "T1", some 0, "A", 50⟩,
        ⟨"W2", "T2", some 1, "B", 200⟩]
      (groupBySum ticketKey SalesRow.precioVenta
        [⟨"W1", "T1", some 0, "A", 100⟩, ⟨"W1", "T1", some 0, "A", 50⟩,
          ⟨"W2", "T2", some 1, "B", 200⟩]) ∧
    ((groupBySum ticketKey SalesRow.precioVenta
        [⟨"W1", "T1", some 0, "A", 100⟩, ⟨"W1", "T1", some 0, "A", 50⟩,
          ⟨"W2", "T2", some 1, "B", 200⟩]).map Prod.snd).sum =
      (([⟨"W1", "T1", some 0, "A", 100⟩, ⟨"W1", "T1", some 0, "A", 50⟩,
          ⟨"W2", "T2", some 1, "B", 200⟩] : List SalesRow).map SalesRow.precioVenta).sum ∧
    (groupBySum ticketKey SalesRow.precioVenta
        [⟨"W1", "T1", some 0, "A", 100⟩, ⟨"W1", "T1", some 0, "A", 50⟩,
          ⟨"W2", "T2", some 1, "B", 200⟩]).Perm
      [(("W1", "T1"), 150), (("W2", "T2"), 200)] :=
  ⟨List.Perm.refl _,
    aggregator_conserves_total_and_scenario.1 _ _ (List.Perm.refl _),
    aggregator_conserves_total_and_scenario.2 _ (List.Perm.refl _)⟩

/-! ## Top/Bottom-N theorems -/

/-- C2 (amended).  Every output `prepareTopSellers` may return is sorted by the
reduced total-sales value in the requested direction (descending for top,
ascending for bottom) and is the `limit`-prefix of such a sorted arrangement of
the per-seller totals; it has `min limit (number of groups)` rows, its entries
are per-seller totals, and when `limit` is at least the number of distinct
sellers it consists of all the groups, with no error.  (The tie-break order
among equal totals is *not* specified: polars `group_by` returns groups in
non-deterministic order and `sort` is not stable by default.) -/
theorem topSellers_sorted_and_truncated (df filtered : List SalesRow) (limit : Nat)
    (ascending : Bool) (days : Int) (out : List (String × ℚ))
    (hf : filterLastNDaysFromMaxDate SalesRow.fecha days df = .ok filtered)
    (h : relPrepareTopSellers df limit ascending days (.ok out)) :
    valueSorted ascending out ∧
    out.length = min limit (sellerTotals filtered).length ∧
    (∀ x ∈ out, x ∈ sellerTotals filtered) ∧
    ((sellerTotals filtered).length ≤ limit → out.Perm (sellerTotals filtered)) := by
  unfold relPrepareTopSellers at h
  rw [hf] at h
  obtain ⟨g, s, hg, ⟨hsp, hsort⟩, hout⟩ := h
  have hto : out = s.take limit := by
    injection hout
  subst hto
  have hsg : s.Perm (sellerTotals filtered) := hsp.trans hg
  refine ⟨?_, ?_, ?_, ?_⟩
  · exact List.Pairwise.sublist (List.take_sublist _ _) hsort
  · rw [List.length_take, hsg.length_eq]
  · intro x hx
    exact hsg.mem_iff.mp ((List.take_sublist _ _).mem hx)
  · intro hle
    rw [List.take_of_length_le (by rw [hsg.length_eq]; exact hle)]
    exact hsg

theorem topSellers_sorted_and_truncated_witness :
    filterLastNDaysFromMaxDate SalesRow.fecha 30 [⟨"W", "N1", some 0, "A", 10⟩] =
      .ok [⟨"W", "N1", some 0, "A", 10⟩] ∧
    relPrepareTopSellers [⟨"W", "N1", some 0, "A", 10⟩] 5 false 30 (.ok [("A", 10)]) ∧
    (valueSorted false [("A", 10)] ∧
      [("A", (10 : ℚ))].length =
        min 5 (sellerTotals [⟨"W", "N1", some 0, "A", 10⟩]).length ∧
      (∀ x ∈ [("A", (10 : ℚ))], x ∈ sellerTotals [⟨"W", "N1", some 0, "A", 10⟩]) ∧
      ((sellerTotals [⟨"W", "N1", some 0, "A", 10⟩]).length ≤ 5 →
        List.Perm [("A", (10 : ℚ))] (sellerTotals [⟨"W", "N1", some 0, "A", 10⟩]))) :=
  have hf : filterLastNDaysFromMaxDate SalesRow.fecha 30 [⟨"W", "N1", some 0, "A", 10⟩] =
      .ok [⟨"W", "N1", some 0, "A", 10⟩] := rfl
  have hrel : relPrepareTopSellers [⟨"W", "N1", some 0, "A", 10⟩] 5 false 30
      (.ok [("A", 10)]) := by
    unfold relPrepareTopSellers
    rw [hf]
    exact ⟨[("A", 10)], [("A", 10)], List.Perm.refl _,
      ⟨List.Perm.refl _, List.pairwise_singleton _ _⟩, rfl⟩
  ⟨hf, hrel,
    topSellers_sorted_and_truncated [⟨"W", "N1", some 0, "A", 10⟩]
      [⟨"W", "N1", some 0, "A", 10⟩] 5 false 30 [("A", 10)] hf hrel⟩

/-- C2 counterexample.  With two sellers tied at the same total, the output
with the tied groups in *reversed* first-occurrence order is also a permitted
result of `prepareTopSellers` (polars `group_by` order is non-deterministic and
`sort` is called without `maintain_order`), so the claimed input-order/stable
tie-break does not hold. -/
theorem topSellers_tie_break_counterexample :
    relPrepareTopSellers
      [⟨"W", "N1", some 0, "A", 100⟩, ⟨"W", "N2", some 0, "B", 100⟩] 2 false 30
      (.ok [("B", 100), ("A", 100)]) ∧
    sellerTotals [⟨"W", "N1", some 0, "A", 100⟩, ⟨"W", "N2", some 0, "B", 100⟩] =
      [("A", 100), ("B", 100)] ∧
    ([("B", (100 : ℚ)), ("A", 100)] ≠ [("A", 100), ("B", 100)]) := by
  have hf : filterLastNDaysFromMaxDate SalesRow.fecha 30
      [⟨"W", "N1", some 0, "A", 100⟩, ⟨"W", "N2", some 0, "B", 100⟩] =
      .ok [⟨"W", "N1", some 0, "A", 100⟩, ⟨"W", "N2", some 0, "B", 100⟩] := rfl
  have hc : sellerTotals [⟨"W", "N1", some 0, "A", 100⟩, ⟨"W", "N2", some 0, "B", 100⟩] =
      [("A", 100), ("B", 100)] := rfl
  refine ⟨?_, hc, ?_⟩
  · unfold relPrepareTopSellers
    rw [hf]
    refine ⟨[("A", 100), ("B", 100)], [("B", 100), ("A", 100)], ?_, ⟨?_, ?_⟩, rfl⟩
    · unfold relGroupBySum
      rw [show groupBySum SalesRow.vendedor SalesRow.precioVenta
          [⟨"W", "N1", some 0, "A", 100⟩, ⟨"W", "N2", some 0, "B", 100⟩] =
          [("A", 100), ("B", 100)] from rfl]
    · exact List.Perm.swap _ _ _
    · exact List.pairwise_pair.mpr (le_refl _)
  · simp

/-! ## The five reductions are insensitive to the polars group order -/

theorem colMean_perm {l l' : List ℚ} (h : l.Perm l') : colMean l = colMean l' := by
  unfold colMean
  rw [h.length_eq, h.sum_eq]
  rcases eq_or_ne l' [] with hl | hl
  · have hl2 : l = [] := by rw [hl] at h; exact h.eq_nil
    rw [if_pos hl2, if_pos hl]
  · have hl2 : l ≠ [] := fun he => hl (by rw [he] at h; exact h.symm.eq_nil)
    rw [if_neg hl2, if_neg hl]

theorem insertionSort_eq_of_perm {l l' : List ℚ} (h : l.Perm l') :
    l.insertionSort (· ≤ ·) = l'.insertionSort (· ≤ ·) :=
  List.eq_of_perm_of_sorted
    ((List.perm_insertionSort _ l).trans (h.trans (List.perm_insertionSort _ l').symm))
    (List.sorted_insertionSort _ l) (List.sorted_insertionSort _ l')

theorem colMedian_perm {l l' : List ℚ} (h : l.Perm l') : colMedian l = colMedian l' := by
  unfold colMedian
  rw [insertionSort_eq_of_perm h, h.length_eq]
  rcases eq_or_ne l' [] with hl | hl
  · have hl2 : l = [] := by rw [hl] at h; exact h.eq_nil
    rw [if_pos hl2, if_pos hl]
  · have hl2 : l ≠ [] := fun he => hl (by rw [he] at h; exact h.symm.eq_nil)
    rw [if_neg hl2, if_neg hl]

theorem colStdSq_perm {l l' : List ℚ} (h : l.Perm l') : colStdSq l = colStdSq l' := by
  unfold colStdSq
  rw [h.length_eq, h.sum_eq, List.Perm.sum_eq (h.map _)]

theorem colMin_perm {l l' : List ℚ} (h : l.Perm l') : colMin l = colMin l' := by
  induction h with
  | nil => rfl
  | cons x p ih =>
    simp only [colMin]
    rw [p.foldl_eq]
  | swap x y t =>
    simp only [colMin, List.foldl_cons]
    rw [min_comm]
  | trans p1 p2 ih1 ih2 => exact ih1.trans ih2

theorem colMax_perm {l l' : List ℚ} (h : l.Perm l') : colMax l = colMax l' := by
  induction h with
  | nil => rfl
  | cons x p ih =>
    simp only [colMax]
    rw [p.foldl_eq]
  | swap x y t =>
    simp only [colMax, List.foldl_cons]
    rw [max_comm]
  | trans p1 p2 ih1 ih2 => exact ih1.trans ih2

theorem summarize_perm {l l' : List ℚ} (h : l.Perm l') : summarize l = summarize l' := by
  unfold summarize
  rw [colMean_perm h, colMedian_perm h, colStdSq_perm h, colMin_perm h, colMax_perm h]

/-- C5 (amended).  `prepareSummaryStatistics` is a second-order aggregation:
whatever group order polars returns, the result is the single fixed-shape
record obtained by applying the five statistics (mean, median, standard
deviation, min, max — there is no sixth count statistic) to the per-ticket
totals, not to the raw rows. -/
theorem summaryStatistics_over_ticket_totals (df : List SalesRow) (out : SummaryRecord)
    (h : relPrepareSummaryStatistics df out) :
    out = summarize ((ticketTotals df).map Prod.snd) := by
  obtain ⟨g, hg, rfl⟩ := h
  exact summarize_perm (List.Perm.map Prod.snd hg)

theorem summaryStatistics_over_ticket_totals_witness :
    relPrepareSummaryStatistics
      [⟨"W1", "T1", some 0, "A", 100⟩, ⟨"W2", "T2", some 1, "B", 200⟩]
      ⟨some 150, some 150, some 5000, some 100, some 200⟩ ∧
    (⟨some 150, some 150, some 5000, some 100, some 200⟩ : SummaryRecord) =
      summarize ((ticketTotals
        [⟨"W1", "T1", some 0, "A", 100⟩, ⟨"W2", "T2", some 1, "B", 200⟩]).map Prod.snd) :=
  have hsum : summarize ((ticketTotals
      [⟨"W1", "T1", some 0, "A", 100⟩, ⟨"W2", "T2", some 1, "B", 200⟩]).map Prod.snd) =
      ⟨some 150, some 150, some 5000, some 100, some 200⟩ := by
    rw [show (ticketTotals
        [⟨"W1", "T1", some 0, "A", 100⟩, ⟨"W2", "T2", some 1, "B", 200⟩]).map Prod.snd =
        [100, 200] from rfl]
    norm_num [summarize, colMean, colMedian, colStdSq, colMin, colMax, round2, roundHalfEven,
      List.insertionSort, List.orderedInsert]
    exact ⟨150, ⟨by decide, rfl⟩, by norm_num [Int.fract]⟩
  have hrel : relPrepareSummaryStatistics
      [⟨"W1", "T1", some 0, "A", 100⟩, ⟨"W2", "T2", some 1, "B", 200⟩]
      ⟨some 150, some 150, some 5000, some 100, some 200⟩ :=
    ⟨ticketTotals [⟨"W1", "T1", some 0, "A", 100⟩, ⟨"W2", "T2", some 1, "B", 200⟩],
      List.Perm.refl _, hsum.symm⟩
  ⟨hrel, summaryStatistics_over_ticket_totals
    [⟨"W1", "T1", some 0, "A", 100⟩, ⟨"W2", "T2", some 1, "B", 200⟩]
    ⟨some 150, some 150, some 5000, some 100, some 200⟩ hrel⟩

/-- C5 counterexample.  The `select` of `prepareSummaryStatistics` (lines
83–89 of `eda.py`) emits exactly five named statistics — mean, median,
standard deviation, min, max — not six: there is no count statistic in the
produced record. -/
theorem summaryRecord_five_statistics_not_six :
    summaryColumns.length = 5 ∧ summaryColumns.length ≠ 6 := by
  decide

/-- C9.  When the grouped aggregation produces exactly one ticket total (one
distinct `(Almacen, NoMov)` pair), the sample standard deviation of the
summary is undefined (`none`), not zero: polars `std` uses `ddof=1` and needs
at least two values. -/
theorem summaryStatistics_single_ticket_std_null (df : List SalesRow) (out : SummaryRecord)
    (h : relPrepareSummaryStatistics df out) (h1 : (ticketTotals df).length = 1) :
    out.stdSq = none := by
  obtain ⟨g, hg, rfl⟩ := h
  have hlen : (g.map Prod.snd).length = 1 := by
    rw [List.length_map, hg.length_eq]
    exact h1
  show colStdSq (g.map Prod.snd) = none
  unfold colStdSq
  rw [if_neg (by rw [hlen]; omega)]

theorem summaryStatistics_single_ticket_std_null_witness :
    relPrepareSummaryStatistics
      [⟨"W1", "T1", some 0, "A", 100⟩, ⟨"W1", "T1", some 0, "B", 50⟩]
      (summarize ((ticketTotals
        [⟨"W1", "T1", some 0, "A", 100⟩, ⟨"W1", "T1", some 0, "B", 50⟩]).map Prod.snd)) ∧
    (ticketTotals [⟨"W1", "T1", some 0, "A", 100⟩, ⟨"W1", "T1", some 0, "B", 50⟩]).length = 1 ∧
    (summarize ((ticketTotals
      [⟨"W1", "T1", some 0, "A", 100⟩, ⟨"W1", "T1", some 0, "B", 50⟩]).map Prod.snd)).stdSq =
      none :=
  have hrel : relPrepareSummaryStatistics
      [⟨"W1", "T1", some 0, "A", 100⟩, ⟨"W1", "T1", some 0, "B", 50⟩]
      (summarize ((ticketTotals
        [⟨"W1", "T1", some 0, "A", 100⟩, ⟨"W1", "T1", some 0, "B", 50⟩]).map Prod.snd)) :=
    ⟨ticketTotals [⟨"W1", "T1", some 0, "A", 100⟩, ⟨"W1", "T1", some 0, "B", 50⟩],
      List.Perm.refl _, rfl⟩
  ⟨hrel, rfl,
    summaryStatistics_single_ticket_std_null
      [⟨"W1", "T1", some 0, "A", 100⟩, ⟨"W1", "T1", some 0, "B", 50⟩]
      (summarize ((ticketTotals
        [⟨"W1", "T1", some 0, "A", 100⟩, ⟨"W1", "T1", some 0, "B", 50⟩]).map Prod.snd))
      hrel rfl⟩

/-! ## Behaviour of the column-wise strict parse -/

theorem getD_set_ne {α : Type} (l : List α) (i j : Nat) (v d : α) (h : i ≠ j) :
    (l.set i v).getD j d = l.getD j d := by
  rw [List.getD_eq_getElem?_getD, List.getD_eq_getElem?_getD, List.getElem?_set_ne h]

theorem getD_of_length_le {α : Type} (l : List α) (j : Nat) (d : α)
    (h : l.length ≤ j) : l.getD j d = d := by
  rw [List.getD_eq_getElem?_getD, List.getElem?_eq_none h]
  rfl

theorem parseRows_ok_length (j : Nat) (rows rows2 : List (List CellValue))
    (h : parseRows j rows = .ok rows2) : rows2.length = rows.length := by
  induction rows generalizing rows2 with
  | nil =>
    simp only [parseRows] at h
    injection h with h
    subst h
    rfl
  | cons row rest ih =>
    simp only [parseRows] at h
    cases hpc : parseCell (row.getD j .null) with
    | error e => rw [hpc] at h; cases h
    | ok v =>
      rw [hpc] at h
      cases hpr : parseRows j rest with
      | error e => rw [hpr] at h; cases h
      | ok rs =>
        rw [hpr] at h
        injection h with h
        subst h
        simp [ih rs hpr]

theorem parseRows_ok_cell (j : Nat) (rows rows2 : List (List CellValue))
    (h : parseRows j rows = .ok rows2) (k : Nat) (hk : k < rows.length) :
    ∃ v2, parseCell ((rows.getD k []).getD j .null) = .ok v2 ∧
      rows2.getD k [] = (rows.getD k []).set j v2 := by
  induction rows generalizing rows2 k with
  | nil => cases hk
  | cons row rest ih =>
    simp only [parseRows] at h
    cases hpc : parseCell (row.getD j .null) with
    | error e => rw [hpc] at h; cases h
    | ok v =>
      rw [hpc] at h
      cases hpr : parseRows j rest with
      | error e => rw [hpr] at h; cases h
      | ok rs =>
        rw [hpr] at h
        injection h with h
        subst h
        cases k with
        | zero => exact ⟨v, hpc, rfl⟩
        | succ k2 =>
          simp only [List.getD_cons_succ]
          exact ih rs hpr k2 (by simpa using hk)

theorem parseRows_error_parse (j : Nat) (rows : List (List CellValue))
    (hall : ∀ row ∈ rows, (∃ s, row.getD j .null = .str s) ∨ row.getD j .null = .null)
    (hbad : ∃ row ∈ rows, ∃ s, row.getD j .null = .str s ∧ strptimeDT s = none) :
    ∃ s0, strptimeDT s0 = none ∧ parseRows j rows = .error (.parseError s0) := by
  induction rows with
  | nil => obtain ⟨row, hr, _⟩ := hbad; cases hr
  | cons row rest ih =>
    rcases hall row (List.mem_cons_self row rest) with ⟨s, hs⟩ | hnull
    · cases hps : strptimeDT s with
      | none =>
        refine ⟨s, hps, ?_⟩
        simp only [parseRows, hs, parseCell, hps]
      | some dv =>
        have hbad2 : ∃ row2 ∈ rest, ∃ s2, row2.getD j .null = .str s2 ∧
            strptimeDT s2 = none := by
          obtain ⟨row2, hr2, s2, hs2, hps2⟩ := hbad
          rcases List.mem_cons.mp hr2 with he | hm
          · subst he
            rw [hs] at hs2
            injection hs2 with hs2
            subst hs2
            rw [hps] at hps2
            cases hps2
          · exact ⟨row2, hm, s2, hs2, hps2⟩
        obtain ⟨s0, h1, h2⟩ := ih (fun r hr => hall r (List.mem_cons_of_mem row hr)) hbad2
        refine ⟨s0, h1, ?_⟩
        simp only [parseRows, hs, parseCell, hps, h2]
    · have hbad2 : ∃ row2 ∈ rest, ∃ s2, row2.getD j .null = .str s2 ∧
          strptimeDT s2 = none := by
        obtain ⟨row2, hr2, s2, hs2, hps2⟩ := hbad
        rcases List.mem_cons.mp hr2 with he | hm
        · subst he
          rw [hnull] at hs2
          cases hs2
        · exact ⟨row2, hm, s2, hs2, hps2⟩
      obtain ⟨s0, h1, h2⟩ := ih (fun r hr => hall r (List.mem_cons_of_mem row hr)) hbad2
      refine ⟨s0, h1, ?_⟩
      simp only [parseRows, hnull, parseCell, h2]

/-- C6.  The Date Normalizer fails with the missing-column error when the
named column is absent; it fails with the strict-parse error when the column's
values are strings/nulls and some string does not match the pattern; and on
success every string value has been parsed into a datetime — no unparseable
value is ever coerced to null. -/
theorem dateNormalizer_error_handling (df : DataFrame) (c : String) :
    (c ∉ df.columns → cleanDateColumn df c = .error (.schemaError c)) ∧
    ((c ∈ df.columns ∧
        (∀ row ∈ df.rows, (∃ s, row.getD (df.columns.indexOf c) .null = .str s) ∨
          row.getD (df.columns.indexOf c) .null = .null) ∧
        (∃ row ∈ df.rows, ∃ s, row.getD (df.columns.indexOf c) .null = .str s ∧
          strptimeDT s = none)) →
      ∃ s0, strptimeDT s0 = none ∧ cleanDateColumn df c = .error (.parseError s0)) ∧
    (∀ df2, cleanDateColumn df c = .ok df2 →
      ∀ k s, (df.rows.getD k []).getD (df.columns.indexOf c) .null = .str s →
        ∃ d, strptimeDT s = some d ∧
          (df2.rows.getD k []).getD (df.columns.indexOf c) .null = .dt d) := by
  refine ⟨?_, ?_, ?_⟩
  · intro hc
    simp [cleanDateColumn, hc]
  · rintro ⟨hc, hall, hbad⟩
    obtain ⟨s0, h1, h2⟩ := parseRows_error_parse (df.columns.indexOf c) df.rows hall hbad
    exact ⟨s0, h1, by simp [cleanDateColumn, hc, h2]⟩
  · intro df2 h k s hs
    by_cases hc : c ∈ df.columns
    · simp only [cleanDateColumn, if_pos hc] at h
      cases hpr : parseRows (df.columns.indexOf c) df.rows with
      | error e => rw [hpr] at h; cases h
      | ok rs =>
        rw [hpr] at h
        injection h with h
        subst h
        have hk : k < df.rows.length := by
          by_contra hk2
          have h0 : df.rows.getD k [] = [] := getD_of_length_le df.rows k [] (by omega)
          rw [h0] at hs
          simp at hs
        obtain ⟨v2, hv1, hv2⟩ := parseRows_ok_cell _ _ _ hpr k hk
        rw [hs] at hv1
        have hj : df.columns.indexOf c < (df.rows.getD k []).length := by
          by_contra hj2
          have h0 : (df.rows.getD k []).getD (df.columns.indexOf c) .null = .null :=
            getD_of_length_le _ _ _ (by omega)
          rw [h0] at hs
          cases hs
        cases hps : strptimeDT s with
        | none => simp only [parseCell, hps] at hv1; cases hv1
        | some d =>
          refine ⟨d, rfl, ?_⟩
          simp only [parseCell, hps] at hv1
          injection hv1 with hv1
          subst hv1
          show (rs.getD k []).getD (df.columns.indexOf c) .null = .dt d
          rw [hv2, List.getD_eq_getElem?_getD, List.getElem?_set_self hj]
          rfl
    · simp [cleanDateColumn, hc] at h

theorem dateNormalizer_error_handling_witness :
    ("X" ∉ DataFrame.columns ⟨["A"], []⟩ ∧
      cleanDateColumn ⟨["A"], []⟩ "X" = .error (.schemaError "X")) ∧
    (∃ s0, strptimeDT s0 = none ∧
      cleanDateColumn ⟨["Fecha"], [[.str "nodate"]]⟩ "Fecha" =
        .error (.parseError s0)) :=
  ⟨⟨by decide, (dateNormalizer_error_handling ⟨["A"], []⟩ "X").1 (by decide)⟩,
    (dateNormalizer_error_handling ⟨["Fecha"], [[.str "nodate"]]⟩ "Fecha").2.1
      ⟨by decide,
        fun row hrow => by
          rw [List.mem_singleton] at hrow
          subst hrow
          exact Or.inl ⟨"nodate", rfl⟩,
        ⟨[.str "nodate"], by decide, "nodate", rfl, by decide⟩⟩⟩

/-- C7.  On success the Date Normalizer returns a table with the same column
schema, the same row count, the same row order (row `i` of the output
corresponds to row `i` of the input), and every value of every column other
than the date column unchanged. -/
theorem dateNormalizer_preserves_frame (df : DataFrame) (c : String) (df2 : DataFrame)
    (h : cleanDateColumn df c = .ok df2) :
    df2.columns = df.columns ∧ df2.rows.length = df.rows.length ∧
    (∀ i j, j ≠ df.columns.indexOf c →
      (df2.rows.getD i []).getD j .null = (df.rows.getD i []).getD j .null) := by
  by_cases hc : c ∈ df.columns
  · simp only [cleanDateColumn, if_pos hc] at h
    cases hpr : parseRows (df.columns.indexOf c) df.rows with
    | error e => rw [hpr] at h; cases h
    | ok rs =>
      rw [hpr] at h
      injection h with h
      subst h
      have hlen := parseRows_ok_length _ _ _ hpr
      refine ⟨rfl, hlen, ?_⟩
      intro i j hj
      by_cases hi : i < df.rows.length
      · obtain ⟨v2, _, hv2⟩ := parseRows_ok_cell _ _ _ hpr i hi
        show (rs.getD i []).getD j .null = (df.rows.getD i []).getD j .null
        rw [hv2, getD_set_ne _ _ _ _ _ (fun he => hj he.symm)]
      · show (rs.getD i []).getD j .null = (df.rows.getD i []).getD j .null
        rw [getD_of_length_le df.rows i [] (by omega),
          getD_of_length_le rs i [] (by omega)]
  · simp [cleanDateColumn, hc] at h

theorem dateNormalizer_preserves_frame_witness :
    cleanDateColumn ⟨["Almacen", "Fecha"], [[.str "W1", .str "Jan  5 2024 03:45PM"]]⟩
        "Fecha" =
      .ok ⟨["Almacen", "Fecha"], [[.str "W1", .dt ⟨2024, 1, 5, 15, 45⟩]]⟩ ∧
    (DataFrame.columns ⟨["Almacen", "Fecha"], [[.str "W1", .dt ⟨2024, 1, 5, 15, 45⟩]]⟩ =
        ["Almacen", "Fecha"] ∧
      (1 : Nat) = 1 ∧
      ((([[.str "W1", .dt ⟨2024, 1, 5, 15, 45⟩]] :
          List (List CellValue)).getD 0 []).getD 0 .null =
        (([[.str "W1", .str "Jan  5 2024 03:45PM"]] :
          List (List CellValue)).getD 0 []).getD 0 .null)) :=
  have h : cleanDateColumn ⟨["Almacen", "Fecha"], [[.str "W1", .str "Jan  5 2024 03:45PM"]]⟩
      "Fecha" = .ok ⟨["Almacen", "Fecha"], [[.str "W1", .dt ⟨2024, 1, 5, 15, 45⟩]]⟩ :=
    rfl
  ⟨h,
    (dateNormalizer_preserves_frame _ "Fecha" _ h).1,
    (dateNormalizer_preserves_frame _ "Fecha" _ h).2.1,
    (dateNormalizer_preserves_frame _ "Fecha" _ h).2.2 0 0 (by decide)⟩

/-! ## Round-trip behaviour of the fixed chrono format

Formatting is injective on the datetimes the parser can produce (parsing the
formatted string recovers the datetime), but formatting does **not** reproduce
every parseable source string: `%e` pads the day with a space and `%I` pads
the 12-hour value with a zero, so a source string with an unpadded day or hour
parses fine yet formats back differently. -/

theorem digitChar_isDigit (d : Nat) (hd : d < 10) : (Nat.digitChar d).isDigit = true := by
  interval_cases d <;> decide

theorem digitChar_toNat (d : Nat) (hd : d < 10) : (Nat.digitChar d).toNat - 48 = d := by
  interval_cases d <;> decide

theorem digitChar_ne_space (d : Nat) (hd : d < 10) : ¬ Nat.digitChar d = ' ' := by
  interval_cases d <;> decide

theorem skipSpaces_cons_of_ne (c : Char) (l : List Char) (h : ¬ c = ' ') :
    skipSpaces (c :: l) = c :: l := by
  simp [skipSpaces, h]

theorem skipSpaces_space (l : List Char) : skipSpaces (' ' :: l) = skipSpaces l := by
  simp [skipSpaces]

theorem scanDigits_padZero2 (n : Nat) (hn : n < 100) (r : List Char) :
    scanDigits 2 0 (padZero2 n ++ r) = (n, 2, r) := by
  have h1 : n / 10 < 10 := by omega
  have h2 : n % 10 < 10 := by omega
  show scanDigits 2 0 (Nat.digitChar (n / 10) :: Nat.digitChar (n % 10) :: r) = (n, 2, r)
  simp only [scanDigits, digitChar_isDigit _ h1, digitChar_isDigit _ h2,
    digitChar_toNat _ h1, digitChar_toNat _ h2, if_true]
  have he : (0 * 10 + n / 10) * 10 + n % 10 = n := by omega
  rw [he]

theorem scanDigits_pad4 (y : Nat) (hy : y < 10000) (r : List Char) :
    scanDigits 4 0 (pad4 y ++ r) = (y, 4, r) := by
  have h1 : y / 1000 % 10 < 10 := by omega
  have h2 : y / 100 % 10 < 10 := by omega
  have h3 : y / 10 % 10 < 10 := by omega
  have h4 : y % 10 < 10 := by omega
  show scanDigits 4 0 (Nat.digitChar (y / 1000 % 10) :: Nat.digitChar (y / 100 % 10) ::
    Nat.digitChar (y / 10 % 10) :: Nat.digitChar (y % 10) :: r) = (y, 4, r)
  simp only [scanDigits, digitChar_isDigit _ h1, digitChar_isDigit _ h2,
    digitChar_isDigit _ h3, digitChar_isDigit _ h4, digitChar_toNat _ h1,
    digitChar_toNat _ h2, digitChar_toNat _ h3, digitChar_toNat _ h4, if_true]
  have he : (((0 * 10 + y / 1000 % 10) * 10 + y / 100 % 10) * 10 + y / 10 % 10) * 10 + y % 10
      = y := by omega
  rw [he]

theorem scanNumber_padZero2 (n : Nat) (hn : n < 100) (r : List Char) :
    scanNumber 2 (padZero2 n ++ r) = some (n, r) := by
  have h1 : n / 10 < 10 := by omega
  unfold scanNumber
  rw [show padZero2 n ++ r = Nat.digitChar (n / 10) :: (Nat.digitChar (n % 10) :: r) from rfl,
    skipSpaces_cons_of_ne _ _ (digitChar_ne_space _ h1),
    show Nat.digitChar (n / 10) :: (Nat.digitChar (n % 10) :: r) = padZero2 n ++ r from rfl,
    scanDigits_padZero2 n hn r]
  simp

theorem scanNumber_space_padZero2 (n : Nat) (hn : n < 100) (r : List Char) :
    scanNumber 2 (' ' :: (padZero2 n ++ r)) = some (n, r) := by
  have h1 : n / 10 < 10 := by omega
  unfold scanNumber
  rw [skipSpaces_space,
    show padZero2 n ++ r = Nat.digitChar (n / 10) :: (Nat.digitChar (n % 10) :: r) from rfl,
    skipSpaces_cons_of_ne _ _ (digitChar_ne_space _ h1),
    show Nat.digitChar (n / 10) :: (Nat.digitChar (n % 10) :: r) = padZero2 n ++ r from rfl,
    scanDigits_padZero2 n hn r]
  simp

theorem scanNumber_space_pad4 (y : Nat) (hy : y < 10000) (r : List Char) :
    scanNumber 4 (' ' :: (pad4 y ++ r)) = some (y, r) := by
  have h1 : y / 1000 % 10 < 10 := by omega
  unfold scanNumber
  rw [skipSpaces_space,
    show pad4 y ++ r = Nat.digitChar (y / 1000 % 10) :: (Nat.digitChar (y / 100 % 10) ::
      Nat.digitChar (y / 10 % 10) :: Nat.digitChar (y % 10) :: r) from rfl,
    skipSpaces_cons_of_ne _ _ (digitChar_ne_space _ h1),
    show Nat.digitChar (y / 1000 % 10) :: (Nat.digitChar (y / 100 % 10) ::
      Nat.digitChar (y / 10 % 10) :: Nat.digitChar (y % 10) :: r) = pad4 y ++ r from rfl,
    scanDigits_pad4 y hy r]
  simp

theorem scanNumber_space_padSpace2 (n : Nat) (hn : n < 100) (r : List Char) :
    scanNumber 2 (' ' :: (padSpace2 n ++ (' ' :: r))) = some (n, ' ' :: r) := by
  by_cases h : n < 10
  · rw [show padSpace2 n = [' ', Nat.digitChar n] from by simp [padSpace2, h]]
    unfold scanNumber
    rw [show (' ' :: ([' ', Nat.digitChar n] ++ (' ' :: r))) =
      ' ' :: ' ' :: Nat.digitChar n :: ' ' :: r from rfl, skipSpaces_space, skipSpaces_space,
      skipSpaces_cons_of_ne _ _ (digitChar_ne_space _ h)]
    have hsp : (' ' : Char).isDigit = false := by decide
    simp only [scanDigits, digitChar_isDigit _ h, digitChar_toNat _ h, hsp, if_true,
      Bool.false_eq_true, if_false]
    simp
  · rw [show padSpace2 n = padZero2 n from by simp [padSpace2, h]]
    exact scanNumber_space_padZero2 n hn (' ' :: r)

theorem scanMonthAbbrev_monthAbbrev (m : Nat) (h1 : 1 ≤ m) (h2 : m ≤ 12) (r : List Char) :
    scanMonthAbbrev ((monthAbbrev m).toList ++ r) = some (m, r) := by
  interval_cases m <;> rfl

theorem expectColon_colon (r : List Char) : expectColon (':' :: r) = some r := rfl

theorem scanAmPm_AM (r : List Char) : scanAmPm ('A' :: 'M' :: r) = some (false, r) := rfl

theorem scanAmPm_PM (r : List Char) : scanAmPm ('P' :: 'M' :: r) = some (true, r) := rfl

theorem hour12Of_ge_one (h : Nat) : 1 ≤ hour12Of h := by
  unfold hour12Of; split <;> omega

theorem hour12Of_le_twelve (h : Nat) : hour12Of h ≤ 12 := by
  unfold hour12Of; split <;> omega

theorem hour12Of_mod_am (h : Nat) (hh : h < 12) : hour12Of h % 12 = h := by
  unfold hour12Of; split <;> omega

theorem hour12Of_mod_pm (h : Nat) (hh1 : 12 ≤ h) (hh2 : h < 24) :
    hour12Of h % 12 + 12 = h := by
  unfold hour12Of; split <;> omega

theorem daysInMonth_le_31 (y m : Nat) : daysInMonth y m ≤ 31 := by
  unfold daysInMonth
  split
  · split <;> omega
  · split <;> omega

/-- Parsing the formatted string of a valid datetime recovers the datetime. -/
theorem strptime_strftime (d : DateTimeVal) (hm1 : 1 ≤ d.month) (hm2 : d.month ≤ 12)
    (hd1 : 1 ≤ d.day) (hd2 : d.day ≤ daysInMonth d.year d.month) (hy : d.year < 10000)
    (hh : d.hour < 24) (hmin : d.minute ≤ 59) :
    strptimeChars (strftimeChars d) = some d := by
  obtain ⟨y, mo, da, ho, mi⟩ := d
  simp only at hm1 hm2 hd1 hd2 hy hh hmin
  have hda : da < 100 := by have := daysInMonth_le_31 y mo; omega
  have hh12 : hour12Of ho < 100 := by have := hour12Of_le_twelve ho; omega
  have hmi : mi < 100 := by omega
  by_cases hlt : ho < 12
  · rw [show strftimeChars ⟨y, mo, da, ho, mi⟩ =
        (monthAbbrev mo).toList ++ (' ' :: (padSpace2 da ++ (' ' :: (pad4 y ++
          (' ' :: (padZero2 (hour12Of ho) ++ (':' :: (padZero2 mi ++
          ('A' :: 'M' :: ([] : List Char)))))))))) from by
      simp [strftimeChars, if_pos hlt, List.append_assoc]]
    simp only [strptimeChars, scanMonthAbbrev_monthAbbrev mo hm1 hm2,
      scanNumber_space_padSpace2 da hda, scanNumber_space_pad4 y hy,
      scanNumber_space_padZero2 (hour12Of ho) hh12, expectColon_colon,
      scanNumber_padZero2 mi hmi, scanAmPm_AM]
    rw [if_pos (by
      simp only [Bool.and_eq_true, decide_eq_true_eq]
      exact ⟨⟨⟨⟨⟨trivial, hd1⟩, hd2⟩, hour12Of_ge_one ho⟩, hour12Of_le_twelve ho⟩, hmin⟩)]
    simp [hour12Of_mod_am ho hlt]
  · rw [show strftimeChars ⟨y, mo, da, ho, mi⟩ =
        (monthAbbrev mo).toList ++ (' ' :: (padSpace2 da ++ (' ' :: (pad4 y ++
          (' ' :: (padZero2 (hour12Of ho) ++ (':' :: (padZero2 mi ++
          ('P' :: 'M' :: ([] : List Char)))))))))) from by
      simp [strftimeChars, if_neg hlt, List.append_assoc]]
    simp only [strptimeChars, scanMonthAbbrev_monthAbbrev mo hm1 hm2,
      scanNumber_space_padSpace2 da hda, scanNumber_space_pad4 y hy,
      scanNumber_space_padZero2 (hour12Of ho) hh12, expectColon_colon,
      scanNumber_padZero2 mi hmi, scanAmPm_PM]
    rw [if_pos (by
      simp only [Bool.and_eq_true, decide_eq_true_eq]
      exact ⟨⟨⟨⟨⟨trivial, hd1⟩, hd2⟩, hour12Of_ge_one ho⟩, hour12Of_le_twelve ho⟩, hmin⟩)]
    simp [hour12Of_mod_pm ho (by omega) hh]

theorem isDigit_toNat_sub_le (c : Char) (h : c.isDigit = true) : c.toNat - 48 ≤ 9 := by
  unfold Char.isDigit at h
  rw [Bool.and_eq_true, decide_eq_true_eq, decide_eq_true_eq] at h
  have h3 : c.val.toNat ≤ 57 := UInt32.toNat_le_of_le (by decide) h.2
  unfold Char.toNat
  omega

theorem scanDigits_lt (w : Nat) : ∀ (acc : Nat) (cs : List Char),
    (scanDigits w acc cs).1 < (acc + 1) * 10 ^ w := by
  induction w with
  | zero =>
    intro acc cs
    simp [scanDigits]
  | succ w2 ih =>
    intro acc cs
    have hp : 0 < 10 ^ (w2 + 1) := pow_pos (by norm_num) _
    cases cs with
    | nil =>
      simp only [scanDigits]
      exact lt_of_lt_of_le (Nat.lt_succ_self acc) (Nat.le_mul_of_pos_right _ hp)
    | cons c rest =>
      simp only [scanDigits]
      split
      · rename_i hdig
        have h9 : c.toNat - 48 ≤ 9 := isDigit_toNat_sub_le c hdig
        calc (scanDigits w2 (acc * 10 + (c.toNat - 48)) rest).1
            < (acc * 10 + (c.toNat - 48) + 1) * 10 ^ w2 := ih _ _
          _ ≤ ((acc + 1) * 10) * 10 ^ w2 := Nat.mul_le_mul_right _ (by omega)
          _ = (acc + 1) * 10 ^ (w2 + 1) := by ring
      · exact lt_of_lt_of_le (Nat.lt_succ_self acc) (Nat.le_mul_of_pos_right _ hp)

theorem scanNumber_lt_10000 (cs : List Char) (v : Nat) (r : List Char)
    (h : scanNumber 4 cs = some (v, r)) : v < 10000 := by
  have hb := scanDigits_lt 4 0 (skipSpaces cs)
  unfold scanNumber at h
  split at h
  · cases h
  · injection h with h
    rw [Prod.mk.injEq] at h
    rw [← h.1]
    norm_num at hb
    exact hb

set_option maxHeartbeats 1000000 in
theorem monthFromAbbrev_bounds (s : String) (m : Nat) (h : monthFromAbbrev s = some m) :
    1 ≤ m ∧ m ≤ 12 := by
  unfold monthFromAbbrev at h
  split_ifs at h <;> cases h <;> omega

theorem scanMonthAbbrev_bounds (cs : List Char) (m : Nat) (r : List Char)
    (h : scanMonthAbbrev cs = some (m, r)) : 1 ≤ m ∧ m ≤ 12 := by
  cases cs with
  | nil => cases h
  | cons a t =>
    cases t with
    | nil => cases h
    | cons b t2 =>
      cases t2 with
      | nil => cases h
      | cons c2 t3 =>
        simp only [scanMonthAbbrev] at h
        cases hm : monthFromAbbrev (String.mk [a.toLower, b.toLower, c2.toLower]) with
        | none => rw [hm] at h; cases h
        | some m2 =>
          rw [hm] at h
          injection h with h
          rw [Prod.mk.injEq] at h
          rw [← h.1]
          exact monthFromAbbrev_bounds _ _ hm

/-- A successful parse always yields a valid calendar datetime within the
ranges the format can represent. -/
theorem strptimeChars_valid (cs : List Char) (d : DateTimeVal)
    (h : strptimeChars cs = some d) :
    1 ≤ d.month ∧ d.month ≤ 12 ∧ 1 ≤ d.day ∧ d.day ≤ daysInMonth d.year d.month ∧
      d.year < 10000 ∧ d.hour < 24 ∧ d.minute ≤ 59 := by
  unfold strptimeChars at h
  cases h1 : scanMonthAbbrev cs with
  | none => simp [h1] at h
  | some p1 =>
    obtain ⟨month, cs1⟩ := p1
    simp only [h1] at h
    cases h2 : scanNumber 2 cs1 with
    | none => simp [h2] at h
    | some p2 =>
      obtain ⟨day, cs3⟩ := p2
      simp only [h2] at h
      cases h3 : scanNumber 4 cs3 with
      | none => simp [h3] at h
      | some p3 =>
        obtain ⟨year, cs5⟩ := p3
        simp only [h3] at h
        cases h4 : scanNumber 2 cs5 with
        | none => simp [h4] at h
        | some p4 =>
          obtain ⟨h12, cs7⟩ := p4
          simp only [h4] at h
          cases h5 : expectColon cs7 with
          | none => simp [h5] at h
          | some cs8 =>
            simp only [h5] at h
            cases h6 : scanNumber 2 cs8 with
            | none => simp [h6] at h
            | some p6 =>
              obtain ⟨minute, cs9⟩ := p6
              simp only [h6] at h
              cases h7 : scanAmPm cs9 with
              | none => simp [h7] at h
              | some p7 =>
                obtain ⟨pm, cs10⟩ := p7
                simp only [h7] at h
                split at h
                · rename_i hcond
                  injection h with h
                  subst h
                  simp only [Bool.and_eq_true, decide_eq_true_eq] at hcond
                  obtain ⟨⟨⟨⟨⟨_, hc1⟩, hc2⟩, hc3⟩, hc4⟩, hc5⟩ := hcond
                  have hmb := scanMonthAbbrev_bounds cs month cs1 h1
                  have hyb := scanNumber_lt_10000 cs3 year cs5 h3
                  refine ⟨hmb.1, hmb.2, hc1, hc2, hyb, ?_, hc5⟩
                  show (if pm = true then h12 % 12 + 12 else h12 % 12) < 24
                  cases pm
                  · simp only [Bool.false_eq_true, if_false]
                    omega
                  · simp only [if_true]
                    omega
                · cases h

set_option maxHeartbeats 1000000 in
/-- C8 (amended).  Every timestamp the Date Normalizer outputs round-trips
through the format pattern at the timestamp level: formatting it with
`"%b %e %Y %I:%M%p"` and re-parsing yields the same timestamp (equivalently,
the round-trip to the exact source string holds precisely for canonically
padded source strings). -/
theorem dateNormalizer_format_parse_roundtrip (df : DataFrame) (c : String) (df2 : DataFrame)
    (h : cleanDateColumn df c = .ok df2) :
    ∀ k d, (df2.rows.getD k []).getD (df.columns.indexOf c) .null = .dt d →
      strptimeDT (strftimeDT d) = some d := by
  intro k d hcell
  by_cases hc : c ∈ df.columns
  · simp only [cleanDateColumn, if_pos hc] at h
    cases hpr : parseRows (df.columns.indexOf c) df.rows with
    | error e => rw [hpr] at h; cases h
    | ok rs =>
      rw [hpr] at h
      injection h with h
      subst h
      have hlen := parseRows_ok_length _ _ _ hpr
      have hk : k < df.rows.length := by
        by_contra hk2
        have h0 : rs.getD k [] = [] := getD_of_length_le rs k [] (by omega)
        rw [h0] at hcell
        simp at hcell
      obtain ⟨v2, hv1, hv2⟩ := parseRows_ok_cell _ _ _ hpr k hk
      rw [hv2] at hcell
      by_cases hj : df.columns.indexOf c < (df.rows.getD k []).length
      · rw [List.getD_eq_getElem?_getD, List.getElem?_set_self hj] at hcell
        simp only [Option.getD_some] at hcell
        subst hcell
        cases hcv : (df.rows.getD k []).getD (df.columns.indexOf c) .null with
        | str s =>
          rw [hcv] at hv1
          simp only [parseCell] at hv1
          cases hps : strptimeDT s with
          | none => rw [hps] at hv1; cases hv1
          | some d2 =>
            rw [hps] at hv1
            injection hv1 with hv1
            injection hv1 with hv1
            subst hv1
            have hvalid := strptimeChars_valid s.toList d2 hps
            show strptimeChars (String.toList (String.mk (strftimeChars d2))) = some d2
            exact strptime_strftime d2 hvalid.1 hvalid.2.1 hvalid.2.2.1 hvalid.2.2.2.1
              hvalid.2.2.2.2.1 hvalid.2.2.2.2.2.1 hvalid.2.2.2.2.2.2
        | dt d3 => rw [hcv] at hv1; cases hv1
        | num q => rw [hcv] at hv1; cases hv1
        | null =>
          rw [hcv] at hv1
          simp only [parseCell] at hv1
          injection hv1 with hv1
          cases hv1
      · rw [List.set_eq_of_length_le (by omega)] at hcell
        rw [getD_of_length_le _ _ _ (by omega)] at hcell
        cases hcell
  · simp [cleanDateColumn, hc] at h

set_option maxHeartbeats 2000000 in
theorem dateNormalizer_format_parse_roundtrip_witness :
    cleanDateColumn ⟨["Fecha"], [[.str "Dec 12 1999 12:00AM"]]⟩ "Fecha" =
      .ok ⟨["Fecha"], [[.dt ⟨1999, 12, 12, 0, 0⟩]]⟩ ∧
    (([[.dt ⟨1999, 12, 12, 0, 0⟩]] : List (List CellValue)).getD 0 []).getD
      (List.indexOf "Fecha" ["Fecha"]) .null = .dt ⟨1999, 12, 12, 0, 0⟩ ∧
    strptimeDT (strftimeDT ⟨1999, 12, 12, 0, 0⟩) = some ⟨1999, 12, 12, 0, 0⟩ :=
  have h : cleanDateColumn ⟨["Fecha"], [[.str "Dec 12 1999 12:00AM"]]⟩ "Fecha" =
      .ok ⟨["Fecha"], [[.dt ⟨1999, 12, 12, 0, 0⟩]]⟩ := rfl
  ⟨h, rfl,
    dateNormalizer_format_parse_roundtrip ⟨["Fecha"], [[.str "Dec 12 1999 12:00AM"]]⟩
      "Fecha" ⟨["Fecha"], [[.dt ⟨1999, 12, 12, 0, 0⟩]]⟩ h 0 ⟨1999, 12, 12, 0, 0⟩ rfl⟩

/-- C8 counterexample.  The spec's own example string parses successfully, but
formatting the resulting timestamp back with the same pattern yields the
padded form `"Jan  5 2024 03:45PM"` (`%e` space-pads the day, `%I` zero-pads
the hour), not the source string `"Jan 5 2024 3:45PM"`: the output timestamp
does not round-trip to its source string. -/
theorem dateNormalizer_roundtrip_counterexample :
    cleanDateColumn ⟨["Fecha"], [[.str "Jan 5 2024 3:45PM"]]⟩ "Fecha" =
      .ok ⟨["Fecha"], [[.dt ⟨2024, 1, 5, 15, 45⟩]]⟩ ∧
    strftimeDT ⟨2024, 1, 5, 15, 45⟩ = "Jan  5 2024 03:45PM" ∧
    strftimeDT ⟨2024, 1, 5, 15, 45⟩ ≠ "Jan 5 2024 3:45PM" :=
  ⟨rfl, rfl, by decide⟩

end DailySales
